import Mathlib

/-!
# Verification of the test-certs-site certificate lifecycle engine

Shallow embedding of the Go sources of letsencrypt/test-certs-site:
the storage layer (`storage/storage.go`), the certificate cache
(`certs/certs.go`), the condition checkers and issuer state machine
(`acme/acme.go`, `acme/issuer.go`, `acme/valid.go`), and the timer wheel
(`scheduler/scheduler.go`, `scheduler/job_heap.go`).

Go `time.Time` is modelled as an integer count of nanoseconds; `time.Duration`
is an `Int` with the Go saturation bounds applied where `time.Time.Sub` is
modelled.  Go maps are modelled as association lists.  External collaborators
(the stdlib heap contract, HTTP, `crypto/x509` marshalling) are modelled at
the level of their documented contracts, with the outcomes of fallible
external calls supplied as explicit oracle values.
-/

/- Go `time.Time` is modelled as an `Int` count of nanoseconds since the
zero time; the Go zero value `time.Time{}` is `0`.  Go `time.Duration` is an
`Int` count of nanoseconds. -/

/-- The largest `time.Duration` (`1<<63 - 1` nanoseconds). -/
def maxDuration : Int := 9223372036854775807

/-- The smallest `time.Duration` (`-1 << 63` nanoseconds). -/
def minDuration : Int := -9223372036854775808

/-- Go `t.After(u)`: strictly later. -/
def timeAfter (t u : Int) : Bool := decide (u < t)

/-- Go `t.Before(u)`: strictly earlier. -/
def timeBefore (t u : Int) : Bool := decide (t < u)

/-- Go `t.Sub(u)`, with the documented saturation to the `Duration` range. -/
def timeSub (t u : Int) : Int := max (min (t - u) maxDuration) minDuration

/-- Go `t.Add(d)`. -/
def timeAdd (t : Int) (d : Int) : Int := t + d

/-- The Go zero `time.Time{}`. -/
def timeZero : Int := 0

/-- `time.Hour` in nanoseconds. -/
def timeHour : Int := 3600 * 1000000000

/-- `time.Minute` in nanoseconds. -/
def timeMinute : Int := 60 * 1000000000

/-- Lookup in a Go map modelled as an association list: the value of the
first pair whose key matches. -/
def mapLookup {α : Type} : List (String × α) → String → Option α
  | [], _ => none
  | p :: rest, k => if p.1 = k then some p.2 else mapLookup rest k

/-- Go `delete(m, k)`: drop every pair whose key is `k`. -/
def mapDelete {α : Type} (m : List (String × α)) (k : String) : List (String × α) :=
  m.filter (fun p => ¬ p.1 = k)

/-- Go `m[k] = v`: the new binding shadows any previous one. -/
def mapInsert {α : Type} (m : List (String × α)) (k : String) (v : α) : List (String × α) :=
  (k, v) :: mapDelete m k

namespace config

/-- `config.KeyTypeP256` (config.go). -/
def KeyTypeP256 : String := "p256"

/-- `config.KeyTypeRSA2048` (config.go). -/
def KeyTypeRSA2048 : String := "rsa2048"

end config

/-- An X.509 certificate as used by the core: `x509.Certificate` restricted
to the fields the lifecycle engine reads.  `subjectId` identifies the
certified key pair and is used for the model of signature verification. -/
structure X509Certificate where
  notBefore : Int
  notAfter : Int
  serialNumber : Nat
  subjectId : Nat
  crlDistributionPoints : List String
  deriving DecidableEq, Repr

/-- DER certificate bytes: either bytes that `x509.ParseCertificate` decodes
to a certificate, or bytes that do not parse. -/
inductive DER
  | cert (c : X509Certificate)
  | malformed (id : Nat)
  deriving DecidableEq, Repr

/-- `x509.ParseCertificate`. -/
def parseCertificate : DER → Except String X509Certificate
  | .cert c => .ok c
  | .malformed _ => .error "x509: malformed certificate"

/-- `tls.Certificate` as consumed by the issuer and cache: the DER chain
(`.Certificate`, leaf first) and the parsed leaf (`.Leaf`). -/
structure TLSCertificate where
  certificateChain : List DER
  leaf : X509Certificate
  deriving DecidableEq, Repr

namespace storage

/-- The PEM-encoded PKCS#8 private key file `private.pem`, identified by the
key it contains. -/
structure KeyPEM where
  keyId : Nat
  deriving DecidableEq, Repr

/-- The PEM chain file `certificate.pem`: the leaf binds a public key
(`keyId`) and a serial, followed by the rest of the chain. -/
structure CertPEM where
  keyId : Nat
  serial : Nat
  deriving DecidableEq, Repr

/-- One slot directory `<dir>/<domain>/{next,current}/` and its two files.
`none` models an absent file. -/
structure SlotFiles where
  privatePem : Option KeyPEM
  certificatePem : Option CertPEM
  deriving DecidableEq, Repr

/-- The parsed result of `tls.LoadX509KeyPair`: a matched key and chain. -/
structure TLSPair where
  key : KeyPEM
  cert : CertPEM
  deriving DecidableEq, Repr

/-- `tls.LoadX509KeyPair(certFile, keyFile)`: fails when either file is
missing or the private key does not match the leaf certificate. -/
def loadX509KeyPair (s : SlotFiles) : Except String TLSPair :=
  match s.certificatePem, s.privatePem with
  | some c, some k =>
      if c.keyId = k.keyId then .ok ⟨k, c⟩
      else .error "tls: private key does not match public key"
  | _, _ => .error "open: no such file or directory"

/-- The two slots of one domain under the storage directory. -/
structure DomainDir where
  nextSlot : SlotFiles
  currentSlot : SlotFiles
  deriving DecidableEq, Repr

/-- Outcomes of the fallible OS calls made by `Storage.TakeNext`, supplied by
the environment.  `os.Rename` is atomic: a failed rename changes nothing. -/
structure TakeNextIO where
  mkdirOk : Bool
  renameKeyOk : Bool
  renameCertOk : Bool
  deriving DecidableEq, Repr

/-- `Storage.TakeNext` (storage/storage.go:133-159): make the `current`
directory, read and validate the `next` pair, then rename `private.pem`
followed by `certificate.pem` from `next` into `current`.  Returns the new
state of the domain directory together with the Go return value. -/
def takeNext (o : TakeNextIO) (d : DomainDir) : DomainDir × Except String TLSPair :=
  if ¬ o.mkdirOk then (d, .error "mkdir failed") else
  match loadX509KeyPair d.nextSlot with
  | .error e => (d, .error ("reading next certificate: " ++ e))
  | .ok cert =>
    if ¬ o.renameKeyOk then (d, .error "rename private.pem failed")
    else
      let d1 : DomainDir :=
        { d with
          nextSlot := { d.nextSlot with privatePem := none }
          currentSlot := { d.currentSlot with privatePem := d.nextSlot.privatePem } }
      if ¬ o.renameCertOk then (d1, .error "rename certificate.pem failed")
      else
        ({ d1 with
           nextSlot := { d1.nextSlot with certificatePem := none }
           currentSlot := { d1.currentSlot with certificatePem := d.nextSlot.certificatePem } },
         .ok cert)

/-- `Storage.ReadCurrent`. -/
def readCurrent (d : DomainDir) : Except String TLSPair :=
  loadX509KeyPair d.currentSlot

/-- `Storage.ReadNext`. -/
def readNext (d : DomainDir) : Except String TLSPair :=
  loadX509KeyPair d.nextSlot

/-- A generated private key (`crypto.Signer`): either an ECDSA P-256 key or
an RSA-2048 key, carrying the entropy that produced it. -/
inductive GoKey
  | p256 (d : Nat)
  | rsa2048 (d : Nat)
  deriving DecidableEq, Repr

/-- The identity of the key material as written to `private.pem`; the two
key families are kept apart. -/
def GoKey.keyId : GoKey → Nat
  | .p256 d => 2 * d
  | .rsa2048 d => 2 * d + 1

/-- Outcomes of the external calls made by `Storage.StoreNextKey`: key
generation entropy and success, and the fallible directory/file writes. -/
structure StoreNextKeyIO where
  genOk : Bool
  seed : Nat
  mkdirOk : Bool
  writeOk : Bool
  deriving DecidableEq, Repr

/-- The marshal/mkdir/write tail of `Storage.StoreNextKey`
(storage/storage.go:78-103).  `x509.MarshalPKCS8PrivateKey` cannot fail for
the two generated key families, so it is modelled as total. -/
def writeNextKey (o : StoreNextKeyIO) (d : DomainDir) (key : GoKey) :
    DomainDir × Except String GoKey :=
  if ¬ o.mkdirOk then (d, .error "mkdir failed")
  else if ¬ o.writeOk then (d, .error "write failed")
  else ({ d with nextSlot := { d.nextSlot with privatePem := some ⟨key.keyId⟩ } }, .ok key)

/-- `Storage.StoreNextKey` (storage/storage.go:57-104): switch on the key
type string, generate a key of that type, and write it to
`<domain>/next/private.pem`; an unrecognised key type hits the `default`
branch and returns an error before any disk access. -/
def storeNextKey (o : StoreNextKeyIO) (d : DomainDir) (keyType : String) :
    DomainDir × Except String GoKey :=
  if keyType = config.KeyTypeP256 then
    if ¬ o.genOk then (d, .error "ecdsa generate failed")
    else writeNextKey o d (GoKey.p256 o.seed)
  else if keyType = config.KeyTypeRSA2048 then
    if ¬ o.genOk then (d, .error "rsa generate failed")
    else writeNextKey o d (GoKey.rsa2048 o.seed)
  else (d, .error ("unknown key type: " ++ keyType))

/-- An `ecdsa.PrivateKey` on P-256, identified by its scalar.  The public
key is determined by the scalar. -/
structure ECDSAPrivateKey where
  d : Nat
  deriving DecidableEq, Repr

/-- The public key of a P-256 private key (model: determined by the
scalar). -/
def ECDSAPrivateKey.publicKey (k : ECDSAPrivateKey) : Nat := k.d

/-- `x509.MarshalECPrivateKey`, modelled by its round-trip contract with
`parseECPrivateKey`: an injective SEC 1 encoding of the key. -/
def marshalECPrivateKey (k : ECDSAPrivateKey) : List Nat := [k.d]

/-- `x509.ParseECPrivateKey`: the partial inverse of
`marshalECPrivateKey`. -/
def parseECPrivateKey : List Nat → Except String ECDSAPrivateKey
  | [d] => .ok ⟨d⟩
  | _ => .error "x509: failed to parse EC private key"

/-- The stored JSON for an ACME account (`storage.account`).
`encoding/json` is modelled at the value level: a stored record decodes to
the value that was encoded. -/
structure Account where
  accountURI : String
  privateKey : List Nat
  deriving DecidableEq, Repr

/-- `net/url.PathEscape`.  Modelled as a deterministic encoding; the claims
only rely on equal directories giving equal paths. -/
def pathEscape (s : String) : String := s

/-- The `acme.json` files on disk, keyed by the escaped directory URL. -/
abbrev AcmeFiles := List (String × Account)

/-- `Storage.ReadACME` (part_005:71-95): reject an empty directory URL, open
`<escaped-url>/current/acme.json`, decode the account record and parse its
private key. -/
def readACME (files : AcmeFiles) (directory : String) :
    Except String (String × ECDSAPrivateKey) :=
  if directory = "" then .error "no ACME directory specified"
  else
    match mapLookup files (pathEscape directory) with
    | none => .error "open acme.json: no such file or directory"
    | some acct =>
      match parseECPrivateKey acct.privateKey with
      | .error e => .error ("parsing account private key: " ++ e)
      | .ok key => .ok (acct.accountURI, key)

/-- `Storage.StoreACME` (part_005:98-121): marshal the key, and write the
account record at `<escaped-url>/current/acme.json`, truncating any previous
file. -/
def storeACME (files : AcmeFiles) (directory accountURI : String)
    (key : ECDSAPrivateKey) : AcmeFiles × Option String :=
  (mapInsert files (pathEscape directory) ⟨accountURI, marshalECPrivateKey key⟩, none)

end storage

namespace certs

/-- The `certificate` struct of certs/certs.go: the served TLS material
(nil until loaded) and the intended condition flag. -/
structure ServedCertificate where
  tlsCertificate : Option TLSCertificate
  shouldBeExpired : Bool
  deriving DecidableEq, Repr

/-- `certs.CertManager` (certs/certs.go, the version at lines 84-181): the
map from domain to served certificate entry. -/
structure CertManager where
  certs : List (String × ServedCertificate)
  deriving DecidableEq, Repr

/-- `CertManager.GetCertificate` (certs/certs.go:156-181): look up the SNI
name, fail if the entry is missing or not yet loaded, compute
`expired := time.Now().After(leaf.NotAfter)` and refuse to serve on a
mismatch with the intended condition. -/
def getCertificate (c : CertManager) (now : Int) (serverName : String) :
    Except String TLSCertificate :=
  match mapLookup c.certs serverName with
  | none => .error ("unknown site " ++ serverName)
  | some cert =>
    match cert.tlsCertificate with
    | none => .error ("no certificate for " ++ serverName)
    | some tc =>
      let expired := timeAfter now tc.leaf.notAfter
      if expired && ! cert.shouldBeExpired then
        .error ("certificate for " ++ serverName ++ " is expired")
      else if ! expired && cert.shouldBeExpired then
        .error ("certificate for " ++ serverName ++ " is not expired, but should be")
      else .ok tc

/-- `certs.CertManager` as in part_006:17-30: the served map and the
TLS-ALPN-01 challenge map. -/
structure ChallengeCertManager where
  certs : List (String × TLSCertificate)
  challengeCerts : List (String × TLSCertificate)
  deriving DecidableEq, Repr

/-- `CertManager.Present` (part_006:105-117): build the TLS-ALPN-01
challenge certificate (outcome supplied by the oracle argument) and install
it in the challenge map. -/
def present (c : ChallengeCertManager) (domain : String)
    (challengeCertResult : Except String TLSCertificate) :
    ChallengeCertManager × Option String :=
  match challengeCertResult with
  | .error e => (c, some ("creating challenge certificate: " ++ e))
  | .ok cc =>
    ({ c with challengeCerts := mapInsert c.challengeCerts domain cc }, none)

/-- `CertManager.CleanUp` (part_006:121-128): delete the challenge entry for
the domain and return nil. -/
def cleanUp (c : ChallengeCertManager) (domain : String) :
    ChallengeCertManager × Option String :=
  ({ c with challengeCerts := mapDelete c.challengeCerts domain }, none)

end certs

namespace acme

/-- `x509.RevocationListEntry` restricted to the consulted field. -/
structure RevocationListEntry where
  serialNumber : Nat
  deriving DecidableEq, Repr

/-- `x509.RevocationList` restricted to the consulted fields; `signerId`
names the key that signed the list, for the signature-check model. -/
structure RevocationList where
  revokedCertificateEntries : List RevocationListEntry
  signerId : Nat
  deriving DecidableEq, Repr

/-- `x509.ParseRevocationList` over the model DER bytes: the signer followed
by the revoked serials; empty bytes do not parse. -/
def parseRevocationList : List Nat → Except String RevocationList
  | [] => .error "x509: malformed crl"
  | s :: entries => .ok ⟨entries.map RevocationListEntry.mk, s⟩

/-- `RevocationList.CheckSignatureFrom(issuer)`: the list verifies under the
issuer certificate iff that certificate certifies the signing key. -/
def checkSignatureFrom (crl : RevocationList) (issuerCert : X509Certificate) : Bool :=
  decide (crl.signerId = issuerCert.subjectId)

/-- An `http.Response` as consumed by `checkCRL`: the status code and the
outcome of `io.ReadAll` on the body. -/
structure HTTPResponse where
  statusCode : Nat
  bodyResult : Except String (List Nat)
  deriving Repr

/-- Outcomes of the HTTP calls made by one `checkCRL` run:
`http.NewRequestWithContext` and `r.http.Do`. -/
structure CrlHTTP where
  newRequestResult : Except String Unit
  doResult : Except String HTTPResponse
  deriving Repr

/-- `revoked.checkCRL` (acme/acme.go:364-407): with no distribution points,
assume revoked without fetching; otherwise download `CRLDistributionPoints[0]`,
require status 200, read, parse, verify the signature against the issuer, and
test whether the leaf serial is listed. -/
def checkCRL (o : CrlHTTP) (cert issuerCert : X509Certificate) : Except String Bool :=
  match cert.crlDistributionPoints with
  | [] => .ok true
  | url :: _ =>
    match o.newRequestResult with
    | .error e => .error ("creating HTTP request: " ++ e)
    | .ok _ =>
      match o.doResult with
      | .error e => .error ("downloading CRL " ++ url ++ ": " ++ e)
      | .ok resp =>
        if resp.statusCode ≠ 200 then
          .error ("downloading CRL " ++ url ++ ": invalid status code")
        else
          match resp.bodyResult with
          | .error e => .error ("reading CRL " ++ url ++ ": " ++ e)
          | .ok der =>
            match parseRevocationList der with
            | .error e => .error ("parsing CRL " ++ url ++ ": " ++ e)
            | .ok crl =>
              if ! checkSignatureFrom crl issuerCert then
                .error "validating CRL: signature"
              else
                .ok (crl.revokedCertificateEntries.any
                  (fun entry => entry.serialNumber = cert.serialNumber))

/-- `revoked.checkReady` (acme/acme.go:409-430): fatal if the candidate is
already expired; on a CRL-check error return `(now + checkInterval, err)`;
if the serial is not yet listed return `(now + checkInterval, nil)`; if
listed, the certificate is ready: `(zero, nil)`. -/
def revokedCheckReady (o : CrlHTTP) (checkInterval : Int) (now : Int)
    (cert issuerCert : X509Certificate) : Int × Option String :=
  if timeAfter now cert.notAfter then
    (timeZero, some "certificate expired")
  else
    match checkCRL o cert issuerCert with
    | .error e => (timeAdd now checkInterval, some e)
    | .ok isRevoked =>
      if ! isRevoked then (timeAdd now checkInterval, none)
      else (timeZero, none)

/-- `halfTime` (checker.go:29-33): the midpoint of the certificate
lifetime.  Go integer division truncates toward zero, as `Int.tdiv` does. -/
def halfTime (cert : X509Certificate) : Int :=
  timeAdd cert.notBefore (Int.tdiv (timeSub cert.notAfter cert.notBefore) 2)

/-- `randTime` (acme/valid.go:64-72): `r` models the value drawn by
`mathrand.Int64N(window)`, which lies in `[0, window)` whenever that call is
reached; a non-positive window short-circuits to `start` and draws
nothing. -/
def randTime (r : Int) (start stop : Int) : Int :=
  let window := timeSub stop start
  if window ≤ 0 then start
  else timeAdd start r

/-- The outcome of `client.Certificate.GetRenewalInfo`: the distinguished
`api.ErrNoARI`, any other error, or a renewal window with `RetryAfter`. -/
inductive ARIResult
  | noARI
  | err (msg : String)
  | info (windowStart windowEnd : Int) (retryAfter : Int)
  deriving DecidableEq, Repr

/-- `valid.checkRenew` (acme/valid.go:30-58): mid-lifetime without ARI,
retry in an hour on other ARI errors; otherwise draw a random instant in the
suggested window and clamp it to `now + RetryAfter`. -/
def validCheckRenew (ariResult : ARIResult) (r : Int) (now : Int)
    (cert : X509Certificate) : Int :=
  match ariResult with
  | .noARI => halfTime cert
  | .err _ => timeAdd now timeHour
  | .info windowStart windowEnd retryAfter =>
    let retry := timeAdd now retryAfter
    let renew := randTime r windowStart windowEnd
    if timeAfter renew retry then retry else renew

/-- The `checker` interface (issuer.go / checker.go), with `time.Now()` made
explicit. -/
structure Checker where
  checkReady : Int → X509Certificate → X509Certificate → Int × Option String
  checkRenew : Int → X509Certificate → Int
  shouldRevoke : Bool

/-- The `revoked` checker value wired as in acme/acme.go:357-441. -/
def revokedChecker (o : CrlHTTP) (checkInterval : Int) : Checker where
  checkReady := fun now cert issuerCert => revokedCheckReady o checkInterval now cert issuerCert
  checkRenew := fun _ cert => halfTime cert
  shouldRevoke := true

/-- The store/ACME/cache calls the issuer makes, in program order.  `revoke`
and `storeNextCert` carry the obtained PEM bundle passed to them. -/
inductive IssueEvent
  | storeNextKey
  | obtain
  | revoke (chain : List Nat) (reason : Nat)
  | storeNextCert (chain : List Nat)
  | takeNext
  | loadCertificate
  deriving DecidableEq, Repr

/-- The lego obtain response, restricted to the consumed field
`resp.Certificate` (the PEM bundle bytes). -/
structure ObtainResponse where
  certificate : List Nat
  deriving DecidableEq, Repr

/-- Outcomes of the store, ACME and cache calls available to one `issue`
run, plus the current instant. -/
structure IssueEnv where
  now : Int
  readNextResult : Except String TLSCertificate
  storeNextKeyResult : Except String storage.GoKey
  obtainResult : Except String ObtainResponse
  revokeResult : Option String
  storeNextCertResult : Option String
  readNextAfterStore : Except String TLSCertificate
  takeNextResult : Option String
  loadCertificateResult : Option String

/-- `issuer.issueNext` (acme/issuer.go:120-155): store a fresh key, obtain a
certificate, revoke it with reason keyCompromise (1) when the checker says
so, store the chain into the next slot, and re-read the next slot.  Returns
the trace of calls made and the Go return value. -/
def issueNext (env : IssueEnv) (c : Checker) :
    List IssueEvent × Except String TLSCertificate :=
  match env.storeNextKeyResult with
  | .error e => ([.storeNextKey], .error ("could not store next key: " ++ e))
  | .ok _ =>
    match env.obtainResult with
    | .error e => ([.storeNextKey, .obtain], .error ("could not obtain certificate: " ++ e))
    | .ok resp =>
      if c.shouldRevoke then
        let reasonKeyCompromise : Nat := 1
        match env.revokeResult with
        | some e =>
          ([.storeNextKey, .obtain, .revoke resp.certificate reasonKeyCompromise],
           .error ("could not revoke certificate: " ++ e))
        | none =>
          match env.storeNextCertResult with
          | some e =>
            ([.storeNextKey, .obtain, .revoke resp.certificate reasonKeyCompromise,
              .storeNextCert resp.certificate],
             .error ("could not store next certificate: " ++ e))
          | none =>
            ([.storeNextKey, .obtain, .revoke resp.certificate reasonKeyCompromise,
              .storeNextCert resp.certificate],
             env.readNextAfterStore)
      else
        match env.storeNextCertResult with
        | some e =>
          ([.storeNextKey, .obtain, .storeNextCert resp.certificate],
           .error ("could not store next certificate: " ++ e))
        | none =>
          ([.storeNextKey, .obtain, .storeNextCert resp.certificate],
           env.readNextAfterStore)

/-- `issuer.issue` (acme/issuer.go:69-117): read (or create) the next
material, require a chain of at least two certificates, parse position 1 as
the issuer, consult `checkReady`; on a `checkReady` error reissue via
`issueNext` and surface the original error; when ready, promote via
`takeNext` and reload the cache; otherwise return the ready time for
rescheduling. -/
def issue (env : IssueEnv) (c : Checker) :
    List IssueEvent × (Int × Option String) :=
  let step1 : List IssueEvent × Except String TLSCertificate :=
    match env.readNextResult with
    | .ok nxt => ([], .ok nxt)
    | .error _ => issueNext env c
  match step1 with
  | (tr, .error e) => (tr, (timeZero, some e))
  | (tr, .ok nxt) =>
    if nxt.certificateChain.length ≤ 1 then
      (tr, (timeZero, some "no issuer certificate"))
    else
      match parseCertificate (nxt.certificateChain.getD 1 (.malformed 0)) with
      | .error e => (tr, (timeZero, some ("parsing issuer certificate: " ++ e)))
      | .ok issuerCert =>
        match c.checkReady env.now nxt.leaf issuerCert with
        | (_, some e) =>
          match issueNext env c with
          | (tr2, .error eNext) => (tr ++ tr2, (timeZero, some eNext))
          | (tr2, .ok _) => (tr ++ tr2, (timeZero, some e))
        | (readyTime, none) =>
          if timeAfter env.now readyTime then
            match env.takeNextResult with
            | some e => (tr ++ [.takeNext], (timeZero, some e))
            | none =>
              match env.loadCertificateResult with
              | some e => (tr ++ [.takeNext, .loadCertificate], (timeZero, some e))
              | none => (tr ++ [.takeNext, .loadCertificate], (timeZero, none))
          else (tr, (readyTime, none))

end acme

namespace scheduler

/-- `scheduler.job`: a fire time and an identifier standing for the opaque
task closure. -/
structure Job where
  fireAt : Int
  id : Nat
  deriving DecidableEq, Repr

/-- `jobHeap.Less` (scheduler/job_heap.go:19-21): ordering key is the fire
time, via `time.Before`. -/
def jobLess (a b : Job) : Bool := timeBefore a.fireAt b.fireAt

/-- `heap.Pop` of `container/heap`, modelled by its documented contract:
remove and return a minimal element according to `Less`.  Ties are broken
arbitrarily; this model keeps the earliest-listed of tied jobs. -/
def popMin : List Job → Option (Job × List Job)
  | [] => none
  | j :: rest =>
    match popMin rest with
    | none => some (j, [])
    | some (m, restMin) =>
      if jobLess m j then some (m, j :: restMin) else some (j, rest)

/-- The pop-and-dispatch loop of `Schedule.execute`
(scheduler/scheduler.go:69-84): while the heap minimum is due
(`!now.Before(min.at)`), pop it and dispatch it (`go r.task()`), in that
order.  Returns the dispatched jobs in dispatch order and the remaining
heap.  The fuel argument is the initial heap size; each pop removes one
job, so the fuel never runs out. -/
def executeAux : Nat → Int → List Job → List Job × List Job
  | 0, _, h => ([], h)
  | fuel + 1, now, h =>
    match popMin h with
    | none => ([], h)
    | some (m, rest) =>
      if timeBefore now m.fireAt then ([], h)
      else
        let step := executeAux fuel now rest
        (m :: step.1, step.2)

/-- `Schedule.execute`. -/
def execute (now : Int) (h : List Job) : List Job × List Job :=
  executeAux h.length now h

/-- The two wakeups of `Schedule.loop` (scheduler/scheduler.go:51-66): a
submission arriving on the channel (`heap.Push`), or the timer for the heap
minimum expiring (`execute` at the current instant). -/
inductive SchedEvent
  | submit (j : Job)
  | tick (now : Int)
  deriving DecidableEq, Repr

/-- The scheduler state seen by the worker: the heap contents (as a
multiset, listed in an arbitrary order) and the trace of dispatched jobs in
dispatch order. -/
structure SchedState where
  jobs : List Job
  dispatched : List Job
  deriving DecidableEq, Repr

/-- One iteration of `Schedule.loop`. -/
def schedStep : SchedEvent → SchedState → SchedState
  | .submit j, s => { s with jobs := j :: s.jobs }
  | .tick now, s =>
    let r := execute now s.jobs
    { jobs := r.2, dispatched := s.dispatched ++ r.1 }

/-- A run of `Schedule.loop` over a sequence of wakeups. -/
def schedRun (evs : List SchedEvent) (s : SchedState) : SchedState :=
  evs.foldl (fun st e => schedStep e st) s

end scheduler

/-! ## Helper lemmas about the Go map model -/

theorem mapLookup_mapDelete_self {α : Type} (m : List (String × α)) (k : String) :
    mapLookup (mapDelete m k) k = none := by
  induction m with
  | nil => rfl
  | cons p rest ih =>
    by_cases hk : p.1 = k
    · simpa [mapDelete, List.filter_cons, hk] using ih
    · simpa [mapDelete, List.filter_cons, hk, mapLookup] using ih

theorem mapLookup_mapDelete_ne {α : Type} (m : List (String × α)) (k k2 : String)
    (h : k2 ≠ k) : mapLookup (mapDelete m k) k2 = mapLookup m k2 := by
  induction m with
  | nil => rfl
  | cons p rest ih =>
    by_cases hk : p.1 = k
    · have hne : ¬ p.1 = k2 := by
        intro hcon
        exact h (by rw [← hcon, hk])
      have h1 : mapDelete (p :: rest) k = mapDelete rest k := by
        simp [mapDelete, List.filter_cons, hk]
      have h2 : mapLookup (p :: rest) k2 = mapLookup rest k2 := by
        simp [mapLookup, hne]
      rw [h1, h2, ih]
    · have h1 : mapDelete (p :: rest) k = p :: mapDelete rest k := by
        simp [mapDelete, List.filter_cons, hk]
      by_cases hk2 : p.1 = k2
      · rw [h1]
        simp [mapLookup, hk2]
      · rw [h1]
        simpa [mapLookup, hk2] using ih

theorem mapDelete_of_lookup_none {α : Type} (m : List (String × α)) (k : String)
    (h : mapLookup m k = none) : mapDelete m k = m := by
  induction m with
  | nil => rfl
  | cons p rest ih =>
    by_cases hk : p.1 = k
    · simp [mapLookup, hk] at h
    · have hrest : mapLookup rest k = none := by
        simpa [mapLookup, hk] using h
      simp [mapDelete, List.filter_cons, hk] at ih ⊢
      exact ih hrest

theorem mapLookup_mapInsert_self {α : Type} (m : List (String × α)) (k : String) (v : α) :
    mapLookup (mapInsert m k v) k = some v := by
  simp [mapInsert, mapLookup]

/-! ## C10: CleanUp frame conditions -/

/-- C10: for every domain D, `CleanUp(D, ...)` always returns nil and removes
at most the challenge-certificate entry for D: the served-certificate map and
every other domain's challenge entry are unchanged, and when no challenge
entry exists for D the whole manager is unchanged. -/
theorem C10_cleanUp_frame (c : certs.ChallengeCertManager) (domain : String) :
    (certs.cleanUp c domain).2 = none ∧
    (certs.cleanUp c domain).1.certs = c.certs ∧
    mapLookup (certs.cleanUp c domain).1.challengeCerts domain = none ∧
    (∀ d2, d2 ≠ domain →
      mapLookup (certs.cleanUp c domain).1.challengeCerts d2 =
        mapLookup c.challengeCerts d2) ∧
    (mapLookup c.challengeCerts domain = none → (certs.cleanUp c domain).1 = c) := by
  refine ⟨rfl, rfl, mapLookup_mapDelete_self _ _, ?_, ?_⟩
  · intro d2 h
    exact mapLookup_mapDelete_ne _ _ _ h
  · intro h
    show ({ c with challengeCerts := mapDelete c.challengeCerts domain } : certs.ChallengeCertManager) = c
    rw [mapDelete_of_lookup_none _ _ h]

/-- C10 witness: a concrete manager with a challenge entry for another
domain and none for the cleaned one. -/
theorem C10_cleanUp_frame_witness :
    mapLookup
      (certs.cleanUp
        ⟨[], [("other", ⟨[], ⟨0, 10, 1, 2, []⟩⟩)]⟩ "gone").1.challengeCerts "other" =
      mapLookup
        (⟨[], [("other", ⟨[], ⟨0, 10, 1, 2, []⟩⟩)]⟩ : certs.ChallengeCertManager).challengeCerts
        "other" ∧
    (certs.cleanUp (⟨[], [("other", ⟨[], ⟨0, 10, 1, 2, []⟩⟩)]⟩ : certs.ChallengeCertManager)
        "gone").1 = ⟨[], [("other", ⟨[], ⟨0, 10, 1, 2, []⟩⟩)]⟩ := by
  refine ⟨(C10_cleanUp_frame ⟨[], [("other", ⟨[], ⟨0, 10, 1, 2, []⟩⟩)]⟩ "gone").2.2.2.1
      "other" (by decide), ?_⟩
  exact (C10_cleanUp_frame ⟨[], [("other", ⟨[], ⟨0, 10, 1, 2, []⟩⟩)]⟩ "gone").2.2.2.2 (by rfl)

/-! ## C2: GetCertificate serves only condition-matching material -/

/-- C2: whenever the cache's `GetCertificate` returns TLS material for an SNI
name at time `now`, the served leaf is expired at `now` (strictly after its
NotAfter) exactly when the entry's intended condition is the expired one; on
a mismatch an error is returned instead. -/
theorem C2_getCertificate_condition (c : certs.CertManager) (now : Int)
    (sni : String) (tc : TLSCertificate)
    (h : certs.getCertificate c now sni = .ok tc) :
    ∃ entry : certs.ServedCertificate,
      mapLookup c.certs sni = some entry ∧
      entry.tlsCertificate = some tc ∧
      timeAfter now tc.leaf.notAfter = entry.shouldBeExpired := by
  unfold certs.getCertificate at h
  split at h
  · exact absurd h (by simp)
  · rename_i entry hl
    split at h
    · exact absurd h (by simp)
    · rename_i tc2 htc
      simp only [] at h
      split at h
      · exact absurd h (by simp)
      · split at h
        · exact absurd h (by simp)
        · rename_i hc1 hc2
          have htc2 : tc2 = tc := by
            simpa using h
          subst htc2
          refine ⟨entry, hl, htc, ?_⟩
          cases hexp : timeAfter now tc2.leaf.notAfter with
          | false =>
            cases hsbe : entry.shouldBeExpired with
            | false => rfl
            | true => exact absurd (by rw [hexp, hsbe]; decide) hc2
          | true =>
            cases hsbe : entry.shouldBeExpired with
            | false => exact absurd (by rw [hexp, hsbe]; decide) hc1
            | true => rfl

/-- C2 witness: a concrete cache entry in the expired condition served at a
time past its NotAfter. -/
theorem C2_getCertificate_condition_witness :
    ∃ entry : certs.ServedCertificate,
      mapLookup
        ([("e.test", ⟨some ⟨[], ⟨0, 50, 1, 2, []⟩⟩, true⟩)] :
          List (String × certs.ServedCertificate)) "e.test" = some entry ∧
      entry.tlsCertificate = some ⟨[], ⟨0, 50, 1, 2, []⟩⟩ ∧
      timeAfter 100 (⟨[], ⟨0, 50, 1, 2, []⟩⟩ : TLSCertificate).leaf.notAfter =
        entry.shouldBeExpired :=
  C2_getCertificate_condition ⟨[("e.test", ⟨some ⟨[], ⟨0, 50, 1, 2, []⟩⟩, true⟩)]⟩
    100 "e.test" ⟨[], ⟨0, 50, 1, 2, []⟩⟩ (by rfl)

/-! ## C8: StoreACME / ReadACME round-trip -/

/-- C8: for every non-empty ACME directory URL, `StoreACME(dir, uri, key)`
followed by `ReadACME(dir)` succeeds and returns the same account URI with a
private key whose public key equals the stored key's public key. -/
theorem C8_storeACME_readACME (files : storage.AcmeFiles) (dir uri : String)
    (key : storage.ECDSAPrivateKey) (h : dir ≠ "") :
    ∃ k2 : storage.ECDSAPrivateKey,
      storage.readACME (storage.storeACME files dir uri key).1 dir = .ok (uri, k2) ∧
      k2.publicKey = key.publicKey := by
  refine ⟨key, ?_, rfl⟩
  unfold storage.readACME storage.storeACME
  rw [if_neg h]
  rw [mapLookup_mapInsert_self]
  simp [storage.marshalECPrivateKey, storage.parseECPrivateKey]

/-- C8 witness: a concrete directory, URI and key. -/
theorem C8_storeACME_readACME_witness :
    ∃ k2 : storage.ECDSAPrivateKey,
      storage.readACME
          (storage.storeACME [] "https://acme.example/dir" "acct-7" ⟨42⟩).1
          "https://acme.example/dir" = .ok ("acct-7", k2) ∧
      k2.publicKey = (⟨42⟩ : storage.ECDSAPrivateKey).publicKey :=
  C8_storeACME_readACME [] "https://acme.example/dir" "acct-7" ⟨42⟩ (by decide)

/-! ## C9: StoreNextKey key-type handling -/

/-- C9: `StoreNextKey` called with a key type outside {"p256", "rsa2048"}
returns the unknown-key-type error and leaves the domain directory
untouched; for a key type in that set the unknown-key-type branch is not
taken and any successfully returned key is of the requested type. -/
theorem C9_storeNextKey_keyType (o : storage.StoreNextKeyIO)
    (d : storage.DomainDir) (keyType : String) :
    (keyType ≠ config.KeyTypeP256 → keyType ≠ config.KeyTypeRSA2048 →
      storage.storeNextKey o d keyType =
        (d, .error ("unknown key type: " ++ keyType))) ∧
    (keyType = config.KeyTypeP256 ∨ keyType = config.KeyTypeRSA2048 →
      (storage.storeNextKey o d keyType).2 ≠
        .error ("unknown key type: " ++ keyType) ∧
      ∀ k, (storage.storeNextKey o d keyType).2 = .ok k →
        (keyType = config.KeyTypeP256 → ∃ s, k = storage.GoKey.p256 s) ∧
        (keyType = config.KeyTypeRSA2048 → ∃ s, k = storage.GoKey.rsa2048 s)) := by
  constructor
  · intro h1 h2
    unfold storage.storeNextKey
    rw [if_neg h1, if_neg h2]
  · intro hmem
    rcases hmem with hp | hr
    · subst hp
      by_cases hg : o.genOk
      · by_cases hm : o.mkdirOk
        · by_cases hw : o.writeOk
          · have hres : (storage.storeNextKey o d config.KeyTypeP256).2 =
                .ok (storage.GoKey.p256 o.seed) := by
              unfold storage.storeNextKey storage.writeNextKey
              simp [hg, hm, hw]
            rw [hres]
            refine ⟨by simp, fun k hk => ?_⟩
            refine ⟨fun _ => ⟨o.seed, ?_⟩, fun hc => absurd hc (by decide)⟩
            injection hk with hkk
            exact hkk.symm
          · have hres : (storage.storeNextKey o d config.KeyTypeP256).2 =
                .error "write failed" := by
              unfold storage.storeNextKey storage.writeNextKey
              simp [hg, hm, hw]
            rw [hres]
            refine ⟨?_, fun k hk => absurd hk (by simp)⟩
            intro hc
            injection hc with hcs
            exact absurd hcs (by decide)
        · have hres : (storage.storeNextKey o d config.KeyTypeP256).2 =
              .error "mkdir failed" := by
            unfold storage.storeNextKey storage.writeNextKey
            simp [hg, hm]
          rw [hres]
          refine ⟨?_, fun k hk => absurd hk (by simp)⟩
          intro hc
          injection hc with hcs
          exact absurd hcs (by decide)
      · have hres : (storage.storeNextKey o d config.KeyTypeP256).2 =
            .error "ecdsa generate failed" := by
          unfold storage.storeNextKey
          simp [hg]
        rw [hres]
        refine ⟨?_, fun k hk => absurd hk (by simp)⟩
        intro hc
        injection hc with hcs
        exact absurd hcs (by decide)
    · subst hr
      have hne : config.KeyTypeRSA2048 ≠ config.KeyTypeP256 := by decide
      by_cases hg : o.genOk
      · by_cases hm : o.mkdirOk
        · by_cases hw : o.writeOk
          · have hres : (storage.storeNextKey o d config.KeyTypeRSA2048).2 =
                .ok (storage.GoKey.rsa2048 o.seed) := by
              unfold storage.storeNextKey storage.writeNextKey
              rw [if_neg hne]
              simp [hg, hm, hw]
            rw [hres]
            refine ⟨by simp, fun k hk => ?_⟩
            refine ⟨fun hc => absurd hc (by decide), fun _ => ⟨o.seed, ?_⟩⟩
            injection hk with hkk
            exact hkk.symm
          · have hres : (storage.storeNextKey o d config.KeyTypeRSA2048).2 =
                .error "write failed" := by
              unfold storage.storeNextKey storage.writeNextKey
              rw [if_neg hne]
              simp [hg, hm, hw]
            rw [hres]
            refine ⟨?_, fun k hk => absurd hk (by simp)⟩
            intro hc
            injection hc with hcs
            exact absurd hcs (by decide)
        · have hres : (storage.storeNextKey o d config.KeyTypeRSA2048).2 =
              .error "mkdir failed" := by
            unfold storage.storeNextKey storage.writeNextKey
            rw [if_neg hne]
            simp [hg, hm]
          rw [hres]
          refine ⟨?_, fun k hk => absurd hk (by simp)⟩
          intro hc
          injection hc with hcs
          exact absurd hcs (by decide)
      · have hres : (storage.storeNextKey o d config.KeyTypeRSA2048).2 =
            .error "rsa generate failed" := by
          unfold storage.storeNextKey
          rw [if_neg hne]
          simp [hg]
        rw [hres]
        refine ⟨?_, fun k hk => absurd hk (by simp)⟩
        intro hc
        injection hc with hcs
        exact absurd hcs (by decide)

/-- C9 witness: the bad key type "ed25519" is rejected without touching the
directory, and "p256" yields a P-256 key. -/
theorem C9_storeNextKey_keyType_witness :
    storage.storeNextKey ⟨true, 5, true, true⟩
        ⟨⟨none, none⟩, ⟨none, none⟩⟩ "ed25519" =
      (⟨⟨none, none⟩, ⟨none, none⟩⟩, .error ("unknown key type: " ++ "ed25519")) ∧
    ∀ k, (storage.storeNextKey ⟨true, 5, true, true⟩
        ⟨⟨none, none⟩, ⟨none, none⟩⟩ "p256").2 = .ok k →
      ∃ s, k = storage.GoKey.p256 s := by
  constructor
  · exact (C9_storeNextKey_keyType ⟨true, 5, true, true⟩
      ⟨⟨none, none⟩, ⟨none, none⟩⟩ "ed25519").1 (by decide) (by decide)
  · intro k hk
    exact ((C9_storeNextKey_keyType ⟨true, 5, true, true⟩
      ⟨⟨none, none⟩, ⟨none, none⟩⟩ "p256").2 (Or.inl rfl)).2 k hk |>.1 rfl

/-! ## C1: TakeNext promotion atomicity -/

/-- C1 counterexample: starting from a matched `next` pair and a different
matched `current` pair, with the key rename succeeding and the certificate
rename failing, `TakeNext` returns an error yet the `current` slot's private
key file has changed (it now holds the staged next key). -/
theorem C1_takeNext_counterexample :
    (storage.takeNext ⟨true, true, false⟩
        ⟨⟨some ⟨2⟩, some ⟨2, 20⟩⟩, ⟨some ⟨1⟩, some ⟨1, 10⟩⟩⟩).2 =
      .error "rename certificate.pem failed" ∧
    (storage.takeNext ⟨true, true, false⟩
        ⟨⟨some ⟨2⟩, some ⟨2, 20⟩⟩, ⟨some ⟨1⟩, some ⟨1, 10⟩⟩⟩).1.currentSlot ≠
      (⟨⟨some ⟨2⟩, some ⟨2, 20⟩⟩, ⟨some ⟨1⟩, some ⟨1, 10⟩⟩⟩ :
        storage.DomainDir).currentSlot :=
  ⟨rfl, by decide⟩

/-- C1 (amended): a successful `TakeNext` commits the validated `next` pair
into `current` (so the promoted key matches its leaf); a failed `TakeNext`
leaves the `current` certificate file unchanged, and leaves the `current`
key file unchanged except in the one case where the key rename succeeded and
the certificate rename then failed, in which case `current` holds the staged
next key (and the staged pair's leaf certificate has not moved). -/
theorem C1_takeNext_amended (o : storage.TakeNextIO) (d : storage.DomainDir) :
    (∀ p, (storage.takeNext o d).2 = .ok p →
      (storage.takeNext o d).1.currentSlot = d.nextSlot ∧
      storage.loadX509KeyPair (storage.takeNext o d).1.currentSlot = .ok p) ∧
    (∀ e, (storage.takeNext o d).2 = .error e →
      (storage.takeNext o d).1.currentSlot.certificatePem =
        d.currentSlot.certificatePem ∧
      ((storage.takeNext o d).1.currentSlot.privatePem = d.currentSlot.privatePem ∨
        (o.renameKeyOk = true ∧ o.renameCertOk = false ∧
          (storage.takeNext o d).1.currentSlot.privatePem = d.nextSlot.privatePem))) := by
  by_cases hm : o.mkdirOk
  · cases hl : storage.loadX509KeyPair d.nextSlot with
    | error e =>
      have hres : storage.takeNext o d = (d, .error ("reading next certificate: " ++ e)) := by
        unfold storage.takeNext
        simp [hm, hl]
      rw [hres]
      simp
    | ok cert =>
      by_cases hrk : o.renameKeyOk
      · by_cases hrc : o.renameCertOk
        · have hres : storage.takeNext o d =
              (⟨⟨none, none⟩, ⟨d.nextSlot.privatePem, d.nextSlot.certificatePem⟩⟩,
               .ok cert) := by
            unfold storage.takeNext
            simp [hm, hl, hrk, hrc]
          rw [hres]
          refine ⟨fun p hp => ?_, fun e2 he2 => absurd he2 (by simp)⟩
          have hp2 : cert = p := by injection hp
          refine ⟨rfl, ?_⟩
          show storage.loadX509KeyPair d.nextSlot = .ok p
          rw [hl, hp2]
        · have hres : storage.takeNext o d =
              (⟨⟨none, d.nextSlot.certificatePem⟩,
                ⟨d.nextSlot.privatePem, d.currentSlot.certificatePem⟩⟩,
               .error "rename certificate.pem failed") := by
            unfold storage.takeNext
            simp [hm, hl, hrk, hrc]
          rw [hres]
          refine ⟨fun p hp => absurd hp (by simp),
            fun e2 he2 => ⟨rfl, Or.inr ⟨hrk, ?_, rfl⟩⟩⟩
          simpa using hrc
      · have hres : storage.takeNext o d = (d, .error "rename private.pem failed") := by
          unfold storage.takeNext
          simp [hm, hl, hrk]
        rw [hres]
        simp
  · have hres : storage.takeNext o d = (d, .error "mkdir failed") := by
      unfold storage.takeNext
      simp [hm]
    rw [hres]
    simp

/-- C1 witness: a successful promotion of a concrete matched pair. -/
theorem C1_takeNext_amended_witness :
    (storage.takeNext ⟨true, true, true⟩
        ⟨⟨some ⟨2⟩, some ⟨2, 20⟩⟩, ⟨some ⟨1⟩, some ⟨1, 10⟩⟩⟩).1.currentSlot =
      (⟨⟨some ⟨2⟩, some ⟨2, 20⟩⟩, ⟨some ⟨1⟩, some ⟨1, 10⟩⟩⟩ :
        storage.DomainDir).nextSlot ∧
    storage.loadX509KeyPair
        (storage.takeNext ⟨true, true, true⟩
          ⟨⟨some ⟨2⟩, some ⟨2, 20⟩⟩, ⟨some ⟨1⟩, some ⟨1, 10⟩⟩⟩).1.currentSlot =
      .ok ⟨⟨2⟩, ⟨2, 20⟩⟩ :=
  (C1_takeNext_amended ⟨true, true, true⟩
      ⟨⟨some ⟨2⟩, some ⟨2, 20⟩⟩, ⟨some ⟨1⟩, some ⟨1, 10⟩⟩⟩).1 ⟨⟨2⟩, ⟨2, 20⟩⟩ (by rfl)

/-! ## C4: revoked checker with no CRL distribution points -/

/-- C4: for a non-expired candidate whose CRLDistributionPoints list is
empty, the revoked checker's `checkReady` returns the zero instant with no
error, and `checkCRL` reports revoked without consulting the HTTP oracle at
all (the same result holds for every oracle). -/
theorem C4_revoked_noCRLDP_ready (o : acme.CrlHTTP) (checkInterval : Int)
    (now : Int) (cert issuerCert : X509Certificate)
    (hdp : cert.crlDistributionPoints = [])
    (hexp : timeAfter now cert.notAfter = false) :
    acme.revokedCheckReady o checkInterval now cert issuerCert = (timeZero, none) ∧
    ∀ o2 : acme.CrlHTTP, acme.checkCRL o2 cert issuerCert = .ok true := by
  have hcrl : ∀ o2 : acme.CrlHTTP, acme.checkCRL o2 cert issuerCert = .ok true := by
    intro o2
    unfold acme.checkCRL
    rw [hdp]
  refine ⟨?_, hcrl⟩
  unfold acme.revokedCheckReady
  rw [hexp, hcrl o]
  simp

/-- C4 witness: a concrete non-expired certificate without distribution
points is ready immediately. -/
theorem C4_revoked_noCRLDP_ready_witness :
    acme.revokedCheckReady ⟨.ok (), .error "unused"⟩ 60 100
        ⟨0, 1000, 5, 7, []⟩ ⟨0, 2000, 6, 9, []⟩ = (timeZero, none) ∧
    ∀ o2 : acme.CrlHTTP,
      acme.checkCRL o2 ⟨0, 1000, 5, 7, []⟩ ⟨0, 2000, 6, 9, []⟩ = .ok true :=
  C4_revoked_noCRLDP_ready ⟨.ok (), .error "unused"⟩ 60 100
    ⟨0, 1000, 5, 7, []⟩ ⟨0, 2000, 6, 9, []⟩ (by rfl) (by decide)

/-! ## C6: ARI-driven renewal time -/

/-- C6: when ARI returns a window and a retry-after, `checkRenew` returns
the drawn instant `randTime r start stop`, clamped to `now + retryAfter`
when the draw lands later than that; for a non-empty window the draw lies in
`[start, stop)`, and for a zero-width (or inverted) window the draw is
exactly `start`. -/
theorem C6_validCheckRenew_ari (now windowStart windowEnd : Int)
    (retryAfter : Int) (r : Int) (cert : X509Certificate)
    (h0 : 0 ≤ r)
    (h1 : 0 < timeSub windowEnd windowStart → r < timeSub windowEnd windowStart) :
    acme.validCheckRenew (.info windowStart windowEnd retryAfter) r now cert =
      (if timeAfter (acme.randTime r windowStart windowEnd) (timeAdd now retryAfter)
        then timeAdd now retryAfter
        else acme.randTime r windowStart windowEnd) ∧
    (windowStart < windowEnd →
      windowStart ≤ acme.randTime r windowStart windowEnd ∧
      acme.randTime r windowStart windowEnd < windowEnd) ∧
    (windowEnd ≤ windowStart → acme.randTime r windowStart windowEnd = windowStart) := by
  refine ⟨rfl, ?_, ?_⟩
  · intro hlt
    have hpos : 0 < timeSub windowEnd windowStart := by
      unfold timeSub maxDuration minDuration
      rcases le_total (windowEnd - windowStart) (9223372036854775807 : Int) with hle | hle
      · rw [min_eq_left hle]
        rw [max_eq_left (by omega)]
        omega
      · rw [min_eq_right hle]
        rw [max_eq_left (by omega)]
        omega
    have hr : r < timeSub windowEnd windowStart := h1 hpos
    have hwin : timeSub windowEnd windowStart ≤ windowEnd - windowStart := by
      unfold timeSub maxDuration minDuration
      rcases le_total (windowEnd - windowStart) (9223372036854775807 : Int) with hle | hle
      · rw [min_eq_left hle]
        exact max_le (le_refl _) (by omega)
      · rw [min_eq_right hle]
        exact max_le (by omega) (by omega)
    unfold acme.randTime
    rw [if_neg (by omega)]
    unfold timeAdd
    constructor
    · omega
    · omega
  · intro hle
    have hnonpos : timeSub windowEnd windowStart ≤ 0 := by
      unfold timeSub maxDuration minDuration
      exact max_le (min_le_of_left_le (by omega)) (by omega)
    unfold acme.randTime
    rw [if_pos hnonpos]

/-- C6 witness: a zero-width window picks exactly its start, and the result
is the unclamped draw when it precedes `now + retryAfter`. -/
theorem C6_validCheckRenew_ari_witness :
    acme.validCheckRenew (.info 500 500 3600) 0 100 ⟨0, 1000, 1, 2, []⟩ =
      (if timeAfter (acme.randTime 0 500 500) (timeAdd 100 3600)
        then timeAdd 100 3600
        else acme.randTime 0 500 500) ∧
    acme.randTime 0 500 500 = 500 :=
  ⟨(C6_validCheckRenew_ari 100 500 500 3600 0 ⟨0, 1000, 1, 2, []⟩ (by decide)
      (fun h => absurd h (by decide))).1,
   (C6_validCheckRenew_ari 100 500 500 3600 0 ⟨0, 1000, 1, 2, []⟩ (by decide)
      (fun h => absurd h (by decide))).2.2 (by decide)⟩

/-! ## C3: CRL failures in checkReady and the issue step's response -/

/-- Leaf certificate for the C3 counterexample run. -/
def c3Leaf : X509Certificate := ⟨0, 1000, 5, 7, ["http://crl.example/c.crl"]⟩

/-- Issuer certificate for the C3 counterexample run. -/
def c3Issuer : X509Certificate := ⟨0, 2000, 6, 9, []⟩

/-- Staged next material for the C3 counterexample run. -/
def c3Next : TLSCertificate := ⟨[DER.cert c3Leaf, DER.cert c3Issuer], c3Leaf⟩

/-- HTTP oracle whose CRL download fails. -/
def c3Oracle : acme.CrlHTTP := ⟨.ok (), .error "connection refused"⟩

/-- Issue environment for the C3 counterexample run: the staged next pair
reads fine and every store/ACME call succeeds. -/
def c3Env : acme.IssueEnv :=
  { now := 100
    readNextResult := .ok c3Next
    storeNextKeyResult := .ok (.p256 1)
    obtainResult := .ok ⟨[1, 2, 3]⟩
    revokeResult := none
    storeNextCertResult := none
    readNextAfterStore := .ok c3Next
    takeNextResult := none
    loadCertificateResult := none }

/-- C3 counterexample: with a failing CRL download, `checkReady` does return
`(now + check_interval, err)` — but `issue` responds by running `issueNext`
(a fresh key is stored and a fresh certificate obtained, discarding the
staged next material) and returns the zero time with the original error; it
does not return the readiness time for rescheduling. -/
theorem C3_issue_counterexample :
    acme.revokedCheckReady c3Oracle 60 100 c3Leaf c3Issuer =
      (timeAdd 100 60,
       some "downloading CRL http://crl.example/c.crl: connection refused") ∧
    acme.issue c3Env (acme.revokedChecker c3Oracle 60) =
      ([.storeNextKey, .obtain, .revoke [1, 2, 3] 1, .storeNextCert [1, 2, 3]],
       (timeZero,
        some "downloading CRL http://crl.example/c.crl: connection refused")) ∧
    acme.IssueEvent.storeNextKey ∈ (acme.issue c3Env (acme.revokedChecker c3Oracle 60)).1 ∧
    (acme.issue c3Env (acme.revokedChecker c3Oracle 60)).2.1 ≠ timeAdd 100 60 :=
  ⟨rfl, rfl, by decide, by decide⟩

/-- C3 (amended): when the CRL check fails inside the revoked checker's
`checkReady`, it returns `(now + check_interval, the original error)`; the
issuer's `issue` step, seeing any `checkReady` error, discards the staged
next material by running `issueNext` again and returns the zero time with
the original error (or `issueNext`'s own error when the reissue also
fails) — it does not reschedule the readiness check. -/
theorem C3_checkReady_error_response (o : acme.CrlHTTP) (checkInterval : Int)
    (env : acme.IssueEnv) (nxt : TLSCertificate) (issuerCert : X509Certificate)
    (e : String)
    (hexp : timeAfter env.now nxt.leaf.notAfter = false)
    (hcrl : acme.checkCRL o nxt.leaf issuerCert = .error e)
    (hread : env.readNextResult = .ok nxt)
    (hlen : 1 < nxt.certificateChain.length)
    (hparse : nxt.certificateChain.getD 1 (.malformed 0) = DER.cert issuerCert) :
    acme.revokedCheckReady o checkInterval env.now nxt.leaf issuerCert =
      (timeAdd env.now checkInterval, some e) ∧
    acme.issue env (acme.revokedChecker o checkInterval) =
      ((acme.issueNext env (acme.revokedChecker o checkInterval)).1,
       (timeZero,
        some (match (acme.issueNext env (acme.revokedChecker o checkInterval)).2 with
          | .error eNext => eNext
          | .ok _ => e))) := by
  have hready : acme.revokedCheckReady o checkInterval env.now nxt.leaf issuerCert =
      (timeAdd env.now checkInterval, some e) := by
    unfold acme.revokedCheckReady
    rw [hexp, hcrl]
    simp
  refine ⟨hready, ?_⟩
  unfold acme.issue
  rw [hread]
  simp only []
  rw [if_neg (by omega)]
  rw [hparse]
  simp only [parseCertificate]
  have hcheck : (acme.revokedChecker o checkInterval).checkReady env.now nxt.leaf issuerCert =
      (timeAdd env.now checkInterval, some e) := hready
  rw [hcheck]
  cases hnext : acme.issueNext env (acme.revokedChecker o checkInterval) with
  | mk tr2 r2 =>
    cases r2 with
    | error eNext => rfl
    | ok v => rfl

/-- C3 witness: the amended behavior at the counterexample input, where the
reissue succeeds, so the surfaced error is the original CRL error. -/
theorem C3_checkReady_error_response_witness :
    acme.revokedCheckReady c3Oracle 60 c3Env.now c3Next.leaf c3Issuer =
      (timeAdd c3Env.now 60,
       some "downloading CRL http://crl.example/c.crl: connection refused") ∧
    acme.issue c3Env (acme.revokedChecker c3Oracle 60) =
      ((acme.issueNext c3Env (acme.revokedChecker c3Oracle 60)).1,
       (timeZero,
        some (match (acme.issueNext c3Env (acme.revokedChecker c3Oracle 60)).2 with
          | .error eNext => eNext
          | .ok _ => "downloading CRL http://crl.example/c.crl: connection refused"))) :=
  C3_checkReady_error_response c3Oracle 60 c3Env c3Next c3Issuer
    "downloading CRL http://crl.example/c.crl: connection refused"
    (by decide) (by rfl) (by rfl) (by decide) (by rfl)

/-! ## C5: revocation with reason keyCompromise before staging -/

/-- C5: within `issueNext`, when the checker's `shouldRevoke` is true every
revocation call carries reason code 1 (keyCompromise) and revokes exactly
the just-obtained PEM bundle, and any `StoreNextCert` call is preceded by
that revocation; `issueNext` never promotes into `current` (no `TakeNext`
or cache load), and when `shouldRevoke` is false no revocation call is
made. -/
theorem C5_issueNext_revocation (env : acme.IssueEnv) (c : acme.Checker) :
    (acme.IssueEvent.takeNext ∉ (acme.issueNext env c).1 ∧
     acme.IssueEvent.loadCertificate ∉ (acme.issueNext env c).1) ∧
    (c.shouldRevoke = false →
      ∀ ch r, acme.IssueEvent.revoke ch r ∉ (acme.issueNext env c).1) ∧
    (c.shouldRevoke = true →
      (∀ ch r, acme.IssueEvent.revoke ch r ∈ (acme.issueNext env c).1 →
        r = 1 ∧ env.obtainResult = .ok ⟨ch⟩) ∧
      (∀ i ch, (acme.issueNext env c).1.get? i = some (.storeNextCert ch) →
        ∃ j, j < i ∧ (acme.issueNext env c).1.get? j = some (.revoke ch 1))) := by
  cases hk : env.storeNextKeyResult with
  | error e =>
    have hres : (acme.issueNext env c).1 = [.storeNextKey] := by
      unfold acme.issueNext
      rw [hk]
    rw [hres]
    refine ⟨⟨by simp, by simp⟩, fun _ ch r => by simp, fun _ => ⟨fun ch r hmem => ?_, ?_⟩⟩
    · simp at hmem
    · intro i ch h
      rcases i with _ | i <;> simp at h
  | ok key =>
    cases hob : env.obtainResult with
    | error e =>
      have hres : (acme.issueNext env c).1 = [.storeNextKey, .obtain] := by
        unfold acme.issueNext
        rw [hk, hob]
      rw [hres]
      refine ⟨⟨by simp, by simp⟩, fun _ ch r => by simp, fun _ => ⟨fun ch r hmem => ?_, ?_⟩⟩
      · simp at hmem
      · intro i ch h
        rcases i with _ | _ | i <;> simp at h
    | ok resp =>
      cases hsr : c.shouldRevoke with
      | false =>
        have hres : (acme.issueNext env c).1 =
            [.storeNextKey, .obtain, .storeNextCert resp.certificate] := by
          unfold acme.issueNext
          rw [hk, hob, hsr]
          cases hsc : env.storeNextCertResult <;> rfl
        rw [hres]
        refine ⟨⟨by simp, by simp⟩, fun _ ch r => by simp, fun htrue => ?_⟩
        exact absurd htrue (by simp)
      | true =>
        cases hrv : env.revokeResult with
        | some e =>
          have hres : (acme.issueNext env c).1 =
              [.storeNextKey, .obtain, .revoke resp.certificate 1] := by
            unfold acme.issueNext
            rw [hk, hob, hsr, hrv]
            rfl
          rw [hres]
          refine ⟨⟨by simp, by simp⟩, fun hfalse => absurd hfalse (by simp),
            fun _ => ⟨fun ch r hmem => ?_, ?_⟩⟩
          · simp at hmem
            refine ⟨hmem.2, ?_⟩
            rw [hmem.1]
          · intro i ch h
            rcases i with _ | _ | _ | i <;> simp at h
        | none =>
          have hres : (acme.issueNext env c).1 =
              [.storeNextKey, .obtain, .revoke resp.certificate 1,
               .storeNextCert resp.certificate] := by
            unfold acme.issueNext
            rw [hk, hob, hsr, hrv]
            cases hsc : env.storeNextCertResult <;> rfl
          rw [hres]
          refine ⟨⟨by simp, by simp⟩, fun hfalse => absurd hfalse (by simp),
            fun _ => ⟨fun ch r hmem => ?_, ?_⟩⟩
          · simp at hmem
            refine ⟨hmem.2, ?_⟩
            rw [hmem.1]
          · intro i ch h
            rcases i with _ | _ | _ | _ | i <;> simp at h
            exact ⟨2, by omega, by subst h; rfl⟩

/-- C5 witness: a concrete revoking run and a concrete non-revoking run. -/
theorem C5_issueNext_revocation_witness :
    (∀ ch r, acme.IssueEvent.revoke ch r ∈
        (acme.issueNext c3Env (acme.revokedChecker c3Oracle 60)).1 →
      r = 1 ∧ c3Env.obtainResult = .ok ⟨ch⟩) ∧
    (∀ ch r, acme.IssueEvent.revoke ch r ∉
        (acme.issueNext c3Env
          ⟨fun _ _ _ => (timeZero, none), fun _ _ => timeZero, false⟩).1) :=
  ⟨((C5_issueNext_revocation c3Env (acme.revokedChecker c3Oracle 60)).2.2 (by rfl)).1,
   fun ch r => (C5_issueNext_revocation c3Env
      ⟨fun _ _ _ => (timeZero, none), fun _ _ => timeZero, false⟩).2.1 (by rfl) ch r⟩

/-! ## C7: dispatch order of the timer wheel -/

theorem jobLess_iff (a b : scheduler.Job) :
    scheduler.jobLess a b = true ↔ a.fireAt < b.fireAt := by
  simp [scheduler.jobLess, timeBefore]

theorem popMin_eq_none_iff (l : List scheduler.Job) :
    scheduler.popMin l = none ↔ l = [] := by
  cases l with
  | nil => simp [scheduler.popMin]
  | cons j rest =>
    simp only [scheduler.popMin]
    cases h : scheduler.popMin rest with
    | none => simp
    | some p =>
      cases p with
      | mk m r2 => by_cases hl : scheduler.jobLess m j <;> simp [hl]

theorem popMin_cons_none (j : scheduler.Job) (tl : List scheduler.Job)
    (h : scheduler.popMin tl = none) :
    scheduler.popMin (j :: tl) = some (j, []) := by
  simp [scheduler.popMin, h]

theorem popMin_cons_lt (j : scheduler.Job) (tl : List scheduler.Job)
    (m2 : scheduler.Job) (rest2 : List scheduler.Job)
    (h : scheduler.popMin tl = some (m2, rest2)) (hl : scheduler.jobLess m2 j = true) :
    scheduler.popMin (j :: tl) = some (m2, j :: rest2) := by
  simp [scheduler.popMin, h, hl]

theorem popMin_cons_ge (j : scheduler.Job) (tl : List scheduler.Job)
    (m2 : scheduler.Job) (rest2 : List scheduler.Job)
    (h : scheduler.popMin tl = some (m2, rest2)) (hl : ¬ scheduler.jobLess m2 j = true) :
    scheduler.popMin (j :: tl) = some (j, tl) := by
  simp [scheduler.popMin, h, hl]

theorem popMin_perm (l : List scheduler.Job) (m : scheduler.Job)
    (rest : List scheduler.Job) (h : scheduler.popMin l = some (m, rest)) :
    List.Perm l (m :: rest) := by
  induction l generalizing m rest with
  | nil => simp [scheduler.popMin] at h
  | cons j tl ih =>
    cases htl : scheduler.popMin tl with
    | none =>
      rw [popMin_cons_none j tl htl] at h
      simp only [Option.some.injEq, Prod.mk.injEq] at h
      have htlnil : tl = [] := (popMin_eq_none_iff tl).mp htl
      rw [htlnil, ← h.1, ← h.2]
    | some p =>
      cases p with
      | mk m2 rest2 =>
        by_cases hl : scheduler.jobLess m2 j
        · rw [popMin_cons_lt j tl m2 rest2 htl hl] at h
          simp only [Option.some.injEq, Prod.mk.injEq] at h
          rw [← h.1, ← h.2]
          exact (List.Perm.cons j (ih m2 rest2 htl)).trans (List.Perm.swap m2 j rest2)
        · rw [popMin_cons_ge j tl m2 rest2 htl hl] at h
          simp only [Option.some.injEq, Prod.mk.injEq] at h
          rw [← h.1, ← h.2]

theorem popMin_min (l : List scheduler.Job) (m : scheduler.Job)
    (rest : List scheduler.Job) (h : scheduler.popMin l = some (m, rest)) :
    ∀ x ∈ rest, ¬ (x.fireAt < m.fireAt) := by
  induction l generalizing m rest with
  | nil => simp [scheduler.popMin] at h
  | cons j tl ih =>
    cases htl : scheduler.popMin tl with
    | none =>
      rw [popMin_cons_none j tl htl] at h
      simp only [Option.some.injEq, Prod.mk.injEq] at h
      rw [← h.2]
      simp
    | some p =>
      cases p with
      | mk m2 rest2 =>
        by_cases hl : scheduler.jobLess m2 j
        · rw [popMin_cons_lt j tl m2 rest2 htl hl] at h
          simp only [Option.some.injEq, Prod.mk.injEq] at h
          have hmm : m2 = m := h.1
          have hjlt : m2.fireAt < j.fireAt := (jobLess_iff m2 j).mp hl
          intro x hx
          rw [← h.2] at hx
          rcases List.mem_cons.mp hx with hxj | hxr
          · rw [hxj, ← hmm]
            omega
          · have := ih m2 rest2 htl x hxr
            rw [← hmm]
            exact this
        · rw [popMin_cons_ge j tl m2 rest2 htl hl] at h
          simp only [Option.some.injEq, Prod.mk.injEq] at h
          have hle : ¬ m2.fireAt < j.fireAt := fun hc => hl ((jobLess_iff m2 j).mpr hc)
          intro x hx
          rw [← h.2] at hx
          have hx2 : x ∈ m2 :: rest2 :=
            (popMin_perm tl m2 rest2 htl).mem_iff.mp hx
          rw [← h.1]
          rcases List.mem_cons.mp hx2 with hxm | hxr
          · rw [hxm]
            exact hle
          · have := ih m2 rest2 htl x hxr
            omega

theorem executeAux_succ_none (f : Nat) (now : Int) (h : List scheduler.Job)
    (hp : scheduler.popMin h = none) :
    scheduler.executeAux (f + 1) now h = ([], h) := by
  simp [scheduler.executeAux, hp]

theorem executeAux_succ_wait (f : Nat) (now : Int) (h : List scheduler.Job)
    (m : scheduler.Job) (rest : List scheduler.Job)
    (hp : scheduler.popMin h = some (m, rest)) (ht : timeBefore now m.fireAt = true) :
    scheduler.executeAux (f + 1) now h = ([], h) := by
  simp [scheduler.executeAux, hp, ht]

theorem executeAux_succ_pop (f : Nat) (now : Int) (h : List scheduler.Job)
    (m : scheduler.Job) (rest : List scheduler.Job)
    (hp : scheduler.popMin h = some (m, rest)) (ht : ¬ timeBefore now m.fireAt = true) :
    scheduler.executeAux (f + 1) now h =
      (m :: (scheduler.executeAux f now rest).1, (scheduler.executeAux f now rest).2) := by
  simp [scheduler.executeAux, hp, ht]

theorem executeAux_mem (fuel : Nat) (now : Int) (h : List scheduler.Job)
    (x : scheduler.Job) (hx : x ∈ h) :
    x ∈ (scheduler.executeAux fuel now h).1 ∨ x ∈ (scheduler.executeAux fuel now h).2 := by
  induction fuel generalizing h with
  | zero => exact Or.inr hx
  | succ f ih =>
    cases hp : scheduler.popMin h with
    | none =>
      rw [executeAux_succ_none f now h hp]
      exact Or.inr hx
    | some p =>
      cases p with
      | mk m rest =>
        by_cases ht : timeBefore now m.fireAt
        · rw [executeAux_succ_wait f now h m rest hp ht]
          exact Or.inr hx
        · rw [executeAux_succ_pop f now h m rest hp ht]
          have hx2 : x ∈ m :: rest := (popMin_perm h m rest hp).mem_iff.mp hx
          rcases List.mem_cons.mp hx2 with hxm | hxr
          · exact Or.inl (hxm ▸ List.mem_cons_self m _)
          · rcases ih rest hxr with h2 | h2
            · exact Or.inl (List.mem_cons_of_mem m h2)
            · exact Or.inr h2

theorem executeAux_subset (fuel : Nat) (now : Int) (h : List scheduler.Job)
    (x : scheduler.Job) (hx : x ∈ (scheduler.executeAux fuel now h).2) : x ∈ h := by
  induction fuel generalizing h with
  | zero => exact hx
  | succ f ih =>
    cases hp : scheduler.popMin h with
    | none =>
      rw [executeAux_succ_none f now h hp] at hx
      exact hx
    | some p =>
      cases p with
      | mk m rest =>
        by_cases ht : timeBefore now m.fireAt
        · rw [executeAux_succ_wait f now h m rest hp ht] at hx
          exact hx
        · rw [executeAux_succ_pop f now h m rest hp ht] at hx
          have hxr : x ∈ rest := ih rest hx
          exact (popMin_perm h m rest hp).mem_iff.mpr (List.mem_cons_of_mem m hxr)

theorem executeAux_order (fuel : Nat) (now : Int) (h : List scheduler.Job)
    (J1 J2 : scheduler.Job) (hmem : J1 ∈ h) (hlt : J1.fireAt < J2.fireAt) :
    ∀ n, (scheduler.executeAux fuel now h).1.get? n = some J2 →
      ∃ m, m < n ∧ (scheduler.executeAux fuel now h).1.get? m = some J1 := by
  induction fuel generalizing h with
  | zero => intro n hn; simp [scheduler.executeAux] at hn
  | succ f ih =>
    intro n hn
    cases hp : scheduler.popMin h with
    | none =>
      rw [executeAux_succ_none f now h hp] at hn
      simp at hn
    | some p =>
      cases p with
      | mk m0 rest =>
        by_cases ht : timeBefore now m0.fireAt
        · rw [executeAux_succ_wait f now h m0 rest hp ht] at hn
          simp at hn
        · rw [executeAux_succ_pop f now h m0 rest hp ht] at hn ⊢
          by_cases hm0 : m0 = J1
          · cases n with
            | zero =>
              simp only [List.get?] at hn
              have hj : m0 = J2 := by injection hn
              rw [hm0] at hj
              rw [hj] at hlt
              omega
            | succ k =>
              exact ⟨0, Nat.succ_pos k, by rw [hm0]; rfl⟩
          · have hmem2 : J1 ∈ rest := by
              have hx2 : J1 ∈ m0 :: rest := (popMin_perm h m0 rest hp).mem_iff.mp hmem
              rcases List.mem_cons.mp hx2 with hxm | hxr
              · exact absurd hxm.symm hm0
              · exact hxr
            have hm0ne : m0 ≠ J2 := by
              intro hc
              have := popMin_min h m0 rest hp J1 hmem2
              rw [hc] at this
              omega
            cases n with
            | zero =>
              simp only [List.get?] at hn
              have hj : m0 = J2 := by injection hn
              exact absurd hj hm0ne
            | succ k =>
              simp only [List.get?] at hn
              rcases ih rest hmem2 k hn with ⟨m2, hm2lt, hm2⟩
              exact ⟨m2 + 1, by omega, by simpa using hm2⟩

/-- The jobs dispatched by a run of the loop after a given start state, in
dispatch order (the loop state threads the heap through each wakeup). -/
def newDispatches : List scheduler.SchedEvent → List scheduler.Job → List scheduler.Job
  | [], _ => []
  | .submit j :: rest, h => newDispatches rest (j :: h)
  | .tick now :: rest, h =>
    (scheduler.execute now h).1 ++ newDispatches rest (scheduler.execute now h).2

theorem schedRun_dispatched (evs : List scheduler.SchedEvent) (s : scheduler.SchedState) :
    (scheduler.schedRun evs s).dispatched = s.dispatched ++ newDispatches evs s.jobs := by
  induction evs generalizing s with
  | nil => simp [scheduler.schedRun, newDispatches]
  | cons e rest ih =>
    cases e with
    | submit j =>
      have hstep : scheduler.schedRun (.submit j :: rest) s =
          scheduler.schedRun rest { s with jobs := j :: s.jobs } := rfl
      rw [hstep, ih]
      rfl
    | tick now =>
      have hstep : scheduler.schedRun (.tick now :: rest) s =
          scheduler.schedRun rest
            ⟨(scheduler.execute now s.jobs).2,
             s.dispatched ++ (scheduler.execute now s.jobs).1⟩ := rfl
      rw [hstep, ih]
      simp [newDispatches, List.append_assoc]

theorem newDispatches_order (evs : List scheduler.SchedEvent)
    (h : List scheduler.Job) (J1 J2 : scheduler.Job)
    (hmem : J1 ∈ h) (hlt : J1.fireAt < J2.fireAt) :
    ∀ n, (newDispatches evs h).get? n = some J2 →
      ∃ m, m < n ∧ (newDispatches evs h).get? m = some J1 := by
  induction evs generalizing h with
  | nil => intro n hn; simp [newDispatches] at hn
  | cons e rest ih =>
    cases e with
    | submit j =>
      intro n hn
      exact ih (j :: h) (List.mem_cons_of_mem j hmem) n hn
    | tick now =>
      intro n hn
      simp only [newDispatches] at hn ⊢
      rcases Nat.lt_or_ge n (scheduler.execute now h).1.length with hlen | hlen
      · rw [List.get?_append hlen] at hn
        rcases executeAux_order h.length now h J1 J2 hmem hlt n hn with ⟨m, hmlt, hm⟩
        refine ⟨m, hmlt, ?_⟩
        rw [List.get?_append (lt_trans hmlt hlen)]
        exact hm
      · rw [List.get?_append_right hlen] at hn
        rcases executeAux_mem h.length now h J1 hmem with hd | hh2
        · rcases List.mem_iff_get?.mp hd with ⟨m, hm⟩
          have hmlen : m < (scheduler.execute now h).1.length := by
            rcases List.get?_eq_some.mp hm with ⟨hlt2, _⟩
            exact hlt2
          refine ⟨m, by omega, ?_⟩
          rw [List.get?_append hmlen]
          exact hm
        · rcases ih (scheduler.execute now h).2 hh2 (n - (scheduler.execute now h).1.length) hn
            with ⟨m2, hm2lt, hm2⟩
          refine ⟨(scheduler.execute now h).1.length + m2, by omega, ?_⟩
          rw [List.get?_append_right (by omega)]
          rw [show (scheduler.execute now h).1.length + m2 -
              (scheduler.execute now h).1.length = m2 by omega]
          exact hm2

/-- C7: if two jobs J1 and J2 are both held by the timer wheel and
`J1.fireAt < J2.fireAt`, then over any subsequent sequence of loop wakeups,
whenever J2 appears in the dispatch trace, J1 appears strictly earlier in
it: the worker pops jobs in min-heap order keyed by the fire time and
dispatches each popped job before popping the next. -/
theorem C7_scheduler_dispatch_order (evs : List scheduler.SchedEvent)
    (s : scheduler.SchedState) (J1 J2 : scheduler.Job)
    (h1 : J1 ∈ s.jobs) (h2 : J2 ∈ s.jobs) (hlt : J1.fireAt < J2.fireAt) :
    ∀ n, (((scheduler.schedRun evs s).dispatched).drop s.dispatched.length).get? n =
        some J2 →
      ∃ m, m < n ∧
        (((scheduler.schedRun evs s).dispatched).drop s.dispatched.length).get? m =
          some J1 := by
  rw [schedRun_dispatched, List.drop_left]
  exact newDispatches_order evs s.jobs J1 J2 h1 hlt

/-- C7 witness: two concrete jobs in one heap; after a single tick both are
dispatched, the earlier deadline first. -/
theorem C7_scheduler_dispatch_order_witness :
    ∃ m, m < 1 ∧
      (((scheduler.schedRun [.tick 100] ⟨[⟨5, 1⟩, ⟨3, 0⟩], []⟩).dispatched).drop 0).get? m =
        some ⟨3, 0⟩ :=
  C7_scheduler_dispatch_order [.tick 100] ⟨[⟨5, 1⟩, ⟨3, 0⟩], []⟩ ⟨3, 0⟩ ⟨5, 1⟩
    (by decide) (by decide) (by decide) 1 (by decide)
